import Mathlib

/-!
Verification development for the GEMCODEX repository.

The repository ships a React/TypeScript web client (service worker, router,
Redux session slice, paginated parts query) together with documentation of a
legacy-SQLite-to-PostgreSQL migration pipeline (Transfer Engine, Row Mapper)
and of a realtime change-notification Broadcaster.  The migration and
broadcaster code itself is not part of the provided sources, so those
components are modelled from the specification; the web-client definitions
below are shallow embeddings of the shipped TypeScript files.
-/

namespace GemCodex

/-! ## Transfer pipeline (Row Mapper and Transfer Engine)

Modelled from the spec: the sources `migration/transfer.py` and the backend
are absent from the repository snapshot (only `docs/MIGRATION.md`,
`docs/DOMAIN.md` and the spec describe them), so the data model and the
engine are reconstructed from spec sections 3, 4.1 and 4.2. -/

/-- Modelled from the spec: validation status of a TransferRecord
(valid / warned / rejected), spec section 3. -/
inductive RecordStatus where
  | valid
  | warned
  | rejected
deriving DecidableEq

/-- Modelled from the spec: one legacy source row: a natural primary key
(possibly missing) and named, nullable columns. -/
structure SourceRow where
  pk : Option Nat
  fields : List (String × Option String)
deriving DecidableEq

/-- Modelled from the spec: one source row in flight (spec section 3):
source natural key, mapped destination payload, validation status. -/
structure TransferRecord where
  naturalKey : Option Nat
  payload : List (String × Option String)
  status : RecordStatus
deriving DecidableEq

/-- Modelled from the spec (section 4.2): `map(tableName, sourceRow)`.
A row without its primary key cannot be mapped at all and is rejected;
a soft issue (an unexpected null field) yields a warning; otherwise the
record is valid. Pure: no I/O, no shared state. -/
def mapRow (tableName : String) (r : SourceRow) : TransferRecord :=
  match r.pk with
  | none => { naturalKey := none, payload := r.fields, status := RecordStatus.rejected }
  | some k =>
      if r.fields.any (fun f => f.2.isNone) then
        { naturalKey := some k, payload := r.fields, status := RecordStatus.warned }
      else
        { naturalKey := some k, payload := r.fields, status := RecordStatus.valid }

/-- A record is accepted by the write step exactly when it is not rejected. -/
def TransferRecord.accepted (rec : TransferRecord) : Bool :=
  match rec.status with
  | RecordStatus.rejected => false
  | _ => true

/-- Modelled from the spec (section 3): one logical table-transfer job:
table name, ordered source rows, dependency predecessor table names. -/
structure TransferUnit where
  table : String
  rows : List SourceRow
  preds : List String

/-- Modelled from the spec (section 4.1): run options `{dryRun, verbose}`. -/
structure TransferOptions where
  dryRun : Bool
  verbose : Bool

/-- Modelled from the spec (section 3): per-table counts of the report. -/
structure TableReport where
  table : String
  inserted : Nat
  warned : Nat
  rejected : Nat
deriving DecidableEq

/-- The destination store, abstracted to what the claims observe: each
table name carries the list of rows inserted into it. -/
abbrev DestStore := List (String × List TransferRecord)

/-- Rows currently stored in table `t` of the destination store. -/
def lookupTable (s : DestStore) (t : String) : List TransferRecord :=
  match s with
  | [] => []
  | (n, rs) :: rest => if n = t then rs else lookupTable rest t

/-- Row count of table `t` in the destination store. -/
def rowCount (s : DestStore) (t : String) : Nat :=
  (lookupTable s t).length

/-- Insert (append) one record into table `t` of the destination store. -/
def insertRow (s : DestStore) (t : String) (rec : TransferRecord) : DestStore :=
  match s with
  | [] => [(t, [rec])]
  | (n, rs) :: rest =>
      if n = t then (n, rs ++ [rec]) :: rest else (n, rs) :: insertRow rest t rec

/-- Mapped records of one unit (Row Mapper applied to every source row). -/
def mappedRecords (u : TransferUnit) : List TransferRecord :=
  u.rows.map (mapRow u.table)

/-- Records of one unit that reach the write step (rejected ones never do). -/
def acceptedRecords (u : TransferUnit) : List TransferRecord :=
  (mappedRecords u).filter TransferRecord.accepted

/-- Per-table report of one unit: inserted, warned and rejected counts,
computed by the read/map/validate steps alone. -/
def unitReport (u : TransferUnit) : TableReport :=
  { table := u.table
    inserted := (acceptedRecords u).length
    warned := ((mappedRecords u).filter (fun rec => rec.status = RecordStatus.warned)).length
    rejected := ((mappedRecords u).filter (fun rec => rec.status = RecordStatus.rejected)).length }

/-- Insert-issue events of one unit: the engine issues one insert per
accepted record, tagged with the destination table. -/
def unitTrace (u : TransferUnit) : List (String × TransferRecord) :=
  (acceptedRecords u).map (fun rec => (u.table, rec))

/-- Result of a Transfer Engine run: final destination store, per-table
report, and the ordered trace of issued inserts. -/
structure RunResult where
  store : DestStore
  report : List TableReport
  trace : List (String × TransferRecord)
deriving DecidableEq

/-- Modelled from the spec (sections 4.1, 5): the Transfer Engine run is a
single sequential batch job processing units in list order; every
read/map/validate step runs regardless of `dryRun`, but with `dryRun=true`
no write is issued to the destination store. -/
def run (opts : TransferOptions) (units : List TransferUnit) (dest : DestStore) : RunResult :=
  match units with
  | [] => { store := dest, report := [], trace := [] }
  | u :: rest =>
      let dest' := if opts.dryRun then dest
        else (acceptedRecords u).foldl (fun d rec => insertRow d u.table rec) dest
      let res := run opts rest dest'
      { store := res.store
        report := unitReport u :: res.report
        trace := (if opts.dryRun then [] else unitTrace u) ++ res.trace }

/-- Modelled from the spec (section 4.1): the fixed dependency-respecting
table order (categories before parts and equipment, those before their join
tables, counterparties before orders, orders before order items, knife
tracking before its logs, settings last). -/
def tableOrder : List String :=
  ["part_categories", "equipment_categories", "part_analog_groups", "parts",
   "equipment", "equipment_parts", "counterparties", "orders", "order_items",
   "tasks", "task_parts", "knife_tracking", "knife_status_log",
   "knife_sharpen_log", "app_settings"]

/-- Modelled from the spec (sections 2, 4.1): dependency predecessors of
each table (categories before parts, parts before equipment_parts,
counterparties before orders, and the analogous arrows of the domain). -/
def tablePreds : String → List String
  | "parts" => ["part_categories", "part_analog_groups"]
  | "equipment" => ["equipment_categories"]
  | "equipment_parts" => ["parts", "equipment"]
  | "orders" => ["counterparties"]
  | "order_items" => ["orders", "parts"]
  | "task_parts" => ["tasks", "parts"]
  | "knife_tracking" => ["parts"]
  | "knife_status_log" => ["knife_tracking"]
  | "knife_sharpen_log" => ["knife_tracking"]
  | _ => []

/-- The run's TransferUnits: one unit per table of the fixed order, with its
source rows and dependency predecessors. -/
def defaultUnits (src : String → List SourceRow) : List TransferUnit :=
  tableOrder.map (fun t => { table := t, rows := src t, preds := tablePreds t })

/-- Total number of rows a run inserts into table `t` (accepted records of
the units targeting `t`). -/
def totalInserted (units : List TransferUnit) (t : String) : Nat :=
  (units.map (fun u => if u.table = t then (acceptedRecords u).length else 0)).sum

/-! ## Change Notification Broadcaster

Modelled from the spec: the backend broadcaster is absent from the
repository snapshot (only `docs/API_EXAMPLES.md` and the spec describe it),
so `publish` and the subscriber registry are reconstructed from spec
sections 3, 4.3 and 7. -/

/-- Modelled from the spec (section 3): enumerated entity kind of a
ChangeEvent. -/
inductive EntityKind where
  | part
  | order
  | task
deriving DecidableEq

/-- Modelled from the spec (section 3): operation of a ChangeEvent. -/
inductive EntityOp where
  | created
  | updated
  | deleted
deriving DecidableEq

/-- Modelled from the spec (section 3): a notification of a single entity
mutation; immutable once constructed. -/
structure ChangeEvent where
  entityKind : EntityKind
  entityId : Nat
  operation : EntityOp
  timestamp : Nat
deriving DecidableEq

/-- Modelled from the spec (section 3): one live realtime connection.
`alive = false` means its connection is already closed, so a delivery
attempt to it fails. -/
structure Subscriber where
  id : Nat
  alive : Bool
deriving DecidableEq

/-- The Broadcaster's subscriber registry. -/
abbrev Registry := List Subscriber

/-- Outcome of one `publish` call: the subscribers delivery was attempted
to, the subscribers successfully delivered to, and the registry afterwards. -/
structure PublishResult where
  attempted : List Subscriber
  delivered : List Subscriber
  registry : Registry
deriving DecidableEq

/-- Modelled from the spec (sections 4.3, 7): `publish` attempts delivery of
the event to every currently registered subscriber; a failing subscriber
(connection already closed) never prevents delivery to the remaining ones
and is removed from the registry (SubscriberDeliveryFault is isolated). -/
def publish (reg : Registry) (e : ChangeEvent) : PublishResult :=
  { attempted := reg
    delivered := reg.filter (fun s => s.alive)
    registry := reg.filter (fun s => s.alive) }

/-- Registry after a sequence of publishes. -/
def publishSeq (reg : Registry) (es : List ChangeEvent) : Registry :=
  es.foldl (fun r e => (publish r e).registry) reg

/-! ## Web client: service worker (src/unnamed/part_002)

Shallow embedding of `service-worker.js`: cache storage maps a cache name
to the list of cached request URLs; a fetch responds from cache when a
match exists and falls through to the network otherwise. -/

/-- Browser cache storage: cache name to cached request URLs. -/
abbrev CacheStorage := List (String × List String)

/-- URLs held by cache `name` (empty when the cache does not exist). -/
def cacheLookup (s : CacheStorage) (name : String) : List String :=
  match s with
  | [] => []
  | (n, us) :: rest => if n = name then us else cacheLookup rest name

/-- The `caches.open(name).then(cache.addAll(urls))` step: append `urls` to
cache `name`, creating it when absent. -/
def cacheAddAll (s : CacheStorage) (name : String) (urls : List String) : CacheStorage :=
  match s with
  | [] => [(name, urls)]
  | (n, us) :: rest =>
      if n = name then (n, us ++ urls) :: rest else (n, us) :: cacheAddAll rest name urls

/-- The install event listener of `service-worker.js`: open the cache
named static-v1 and add the two static assets. -/
def installHandler (s : CacheStorage) : CacheStorage :=
  cacheAddAll s "static-v1" ["/", "/manifest.webmanifest"]

/-- Origin of the response produced by the fetch handler. -/
inductive FetchSource where
  | fromCache
  | fromNetwork
deriving DecidableEq

/-- The fetch event listener of `service-worker.js`:
`caches.match(event.request).then(r => r || fetch(event.request))`.
`cacheMatch` is the cache lookup, `network` the network fetch; the result
records which of the two produced the response. -/
def fetchHandler (cacheMatch : String → Option String) (network : String → String)
    (req : String) : String × FetchSource :=
  match cacheMatch req with
  | some resp => (resp, FetchSource.fromCache)
  | none => (network req, FetchSource.fromNetwork)

/-! ## Web client: router (src/webapp/src/router.tsx) -/

/-- A child route of the layout route: an index route (no path) or a
path-bearing route, rendering a component. -/
structure ChildRoute where
  path : Option String
  index : Bool
  element : String
deriving DecidableEq

/-- A top-level route: path, layout component, child routes. -/
structure TopRoute where
  path : String
  element : String
  children : List ChildRoute
deriving DecidableEq

/-- The route table passed to createBrowserRouter in `router.tsx`. -/
def router : List TopRoute :=
  [{ path := "/"
     element := "AppLayout"
     children :=
       [{ path := none, index := true, element := "DashboardPage" },
        { path := some "parts", index := false, element := "PartsPage" },
        { path := some "tasks", index := false, element := "TasksPage" }] }]

/-- Full pathname a child route resolves to under its parent path. -/
def resolvePath (parent : String) (c : ChildRoute) : String :=
  match c.path with
  | none => parent
  | some p => if parent = "/" then "/" ++ p else parent ++ "/" ++ p

/-- All pages of a route table: resolved pathname paired with the rendered
component, for every child of every top-level route. -/
def routePages (rs : List TopRoute) : List (String × String) :=
  rs.flatMap (fun top => top.children.map (fun c => (resolvePath top.path c, c.element)))

/-! ## Web client: parts query (src/unnamed/part_000) -/

/-- The Part entity as declared in `services/parts.ts`. -/
structure Part where
  id : Nat
  name : String
  sku : String
  qty : Int
  min_qty : Int
deriving DecidableEq

/-- The PaginatedResponse shape declared in `services/parts.ts`:
items, total, page, page_size. -/
structure PaginatedResponse (T : Type) where
  items : List T
  total : Nat
  page : Nat
  page_size : Nat
deriving DecidableEq

/-- One GET request against the parts list endpoint, with its query
parameters. -/
structure PartsRequest where
  url : String
  page : Nat
  page_size : Nat
deriving DecidableEq

/-- The requests issued by one invocation of the useParts query: a single
GET of /api/parts with params page 1, page_size 50. -/
def usePartsRequests : List PartsRequest :=
  [{ url := "/api/parts", page := 1, page_size := 50 }]

/-- Modelled from the spec (section 6): the paginated list endpoint is an
external collaborator returning the requested page slice of the full parts
list together with the total count. -/
def paginate (all : List Part) (page page_size : Nat) : PaginatedResponse Part :=
  { items := (all.drop ((page - 1) * page_size)).take page_size
    total := all.length
    page := page
    page_size := page_size }

/-- The response data the useParts query ends up with when the server holds
`all` parts: the endpoint evaluated at the single issued request. -/
def usePartsFetch (all : List Part) : PaginatedResponse Part :=
  paginate all 1 50

/-! ## Auxiliary definitions used by the statements and witnesses -/

/-- Insert-issue trace of a run, unit by unit in list order. -/
def runTrace (units : List TransferUnit) : List (String × TransferRecord) :=
  match units with
  | [] => []
  | u :: rest => unitTrace u ++ runTrace rest

/-- A well-formed sample legacy row with primary key `k`. -/
def sampleRow (k : Nat) : SourceRow :=
  { pk := some k, fields := [("name", some "x")] }

/-- A small concrete legacy store: one category row and one parts row. -/
def srcSample : String → List SourceRow :=
  fun t =>
    if t = "part_categories" then [sampleRow 1]
    else if t = "parts" then [sampleRow 2]
    else []

/-- A concrete legacy row whose primary key is missing. -/
def rowNoPk : SourceRow :=
  { pk := none, fields := [("name", some "x")] }

/-- A concrete change event used to exercise the broadcaster. -/
def evSample : ChangeEvent :=
  { entityKind := EntityKind.task, entityId := 7, operation := EntityOp.updated, timestamp := 0 }

/-- A concrete registry: two live subscribers around one dead subscriber. -/
def regSample : Registry :=
  [{ id := 1, alive := true }, { id := 2, alive := false }, { id := 3, alive := true }]

/-! ## Helper lemmas -/

/-- With `dryRun = true` the engine never changes the destination store. -/
theorem run_dry_store (v : Bool) (units : List TransferUnit) (dest : DestStore) :
    (run ⟨true, v⟩ units dest).store = dest := by
  induction units generalizing dest with
  | nil => rfl
  | cons u rest ih => simpa [run] using ih dest

/-- The report depends only on the units (read/map/validate), not on the
destination store nor on the options. -/
theorem run_report_const (o₁ o₂ : TransferOptions) (units : List TransferUnit)
    (d₁ d₂ : DestStore) :
    (run o₁ units d₁).report = (run o₂ units d₂).report := by
  induction units generalizing d₁ d₂ with
  | nil => rfl
  | cons u rest ih => simpa [run] using ih _ _

/-- The trace of a run is empty on a dry run and `runTrace` otherwise. -/
theorem run_trace_eq (opts : TransferOptions) (units : List TransferUnit) (dest : DestStore) :
    (run opts units dest).trace = if opts.dryRun then [] else runTrace units := by
  induction units generalizing dest with
  | nil => cases opts with | mk d v => cases d <;> rfl
  | cons u rest ih =>
      cases opts with
      | mk d v => cases d <;> simp [run, runTrace, ih]

/-- Effect of a single insert on a row count. -/
theorem rowCount_insertRow (s : DestStore) (tb t : String) (rec : TransferRecord) :
    rowCount (insertRow s tb rec) t = rowCount s t + (if tb = t then 1 else 0) := by
  induction s with
  | nil => by_cases h : tb = t <;> simp [insertRow, rowCount, lookupTable, h]
  | cons hd rest ih =>
      obtain ⟨n, rs⟩ := hd
      simp only [insertRow]
      by_cases h1 : n = tb
      · simp only [if_pos h1, rowCount, lookupTable]
        by_cases h2 : n = t
        · have htt : tb = t := h1.symm.trans h2
          simp [h2, htt]
        · have htt : ¬tb = t := fun he => h2 (h1.trans he)
          simp [h2, htt, rowCount]
      · simp only [if_neg h1, rowCount, lookupTable]
        by_cases h2 : n = t
        · have htt : ¬tb = t := fun he => h1 (h2.trans he.symm)
          simp [h2, htt]
        · simp only [if_neg h2]
          exact ih

/-- Effect of inserting a batch of records into one table on a row count. -/
theorem rowCount_foldl_insert (l : List TransferRecord) (s : DestStore) (tb t : String) :
    rowCount (l.foldl (fun d rec => insertRow d tb rec) s) t
      = rowCount s t + (if tb = t then l.length else 0) := by
  induction l generalizing s with
  | nil => simp
  | cons r rs ih =>
      rw [List.foldl_cons, ih, rowCount_insertRow]
      by_cases h : tb = t <;> simp [h] <;> omega

/-- Row counts after a real run: old count plus the run's inserted total. -/
theorem run_rowCount (v : Bool) (units : List TransferUnit) (dest : DestStore) (t : String) :
    rowCount (run ⟨false, v⟩ units dest).store t = rowCount dest t + totalInserted units t := by
  induction units generalizing dest with
  | nil => simp [run, totalInserted]
  | cons u rest ih =>
      show rowCount (run ⟨false, v⟩ rest
        ((acceptedRecords u).foldl (fun d rec => insertRow d u.table rec) dest)).store t = _
      rw [ih, rowCount_foldl_insert]
      by_cases h : u.table = t <;> simp [totalInserted, h] <;> omega

/-! ## Claim theorems for the transfer pipeline -/

/-- C1: a dry run performs every read/map/validate step but issues no
write: the destination store (and so every table's row count) is unchanged
and the insert trace is empty, while the produced report equals the report
of the corresponding real run. -/
theorem dry_run_preserves_destination (v : Bool) (units : List TransferUnit)
    (dest : DestStore) :
    (run ⟨true, v⟩ units dest).store = dest ∧
    (∀ t, rowCount (run ⟨true, v⟩ units dest).store t = rowCount dest t) ∧
    (run ⟨true, v⟩ units dest).trace = [] ∧
    (run ⟨true, v⟩ units dest).report = (run ⟨false, v⟩ units dest).report := by
  refine ⟨run_dry_store v units dest, ?_, ?_, run_report_const _ _ units dest dest⟩
  · intro t
    rw [run_dry_store v units dest]
  · rw [run_trace_eq]
    rfl

/-- C5: rerunning the engine against a destination that already holds the
previously transferred rows performs plain inserts again, with no
natural-key deduplication: each table ends with twice the per-run inserted
count on top of its original rows, so a second run changes the destination
again: `run` is not idempotent on the destination state. -/
theorem rerun_duplicates_rows (v : Bool) (units : List TransferUnit) (dest : DestStore)
    (t : String) (h : 0 < totalInserted units t) :
    rowCount (run ⟨false, v⟩ units (run ⟨false, v⟩ units dest).store).store t
        = rowCount dest t + 2 * totalInserted units t ∧
    rowCount (run ⟨false, v⟩ units (run ⟨false, v⟩ units dest).store).store t
        ≠ rowCount (run ⟨false, v⟩ units dest).store t := by
  have h1 := run_rowCount v units dest t
  have h2 := run_rowCount v units (run ⟨false, v⟩ units dest).store t
  constructor
  · rw [h2, h1]; ring
  · rw [h2, h1]; omega

/-- Witness for C5 at a concrete legacy store: the parts table gains rows
again on the second run. -/
theorem rerun_duplicates_rows_witness :
    0 < totalInserted (defaultUnits srcSample) "parts" ∧
    (rowCount (run ⟨false, false⟩ (defaultUnits srcSample)
        (run ⟨false, false⟩ (defaultUnits srcSample) []).store).store "parts"
      = rowCount ([] : DestStore) "parts"
          + 2 * totalInserted (defaultUnits srcSample) "parts" ∧
     rowCount (run ⟨false, false⟩ (defaultUnits srcSample)
        (run ⟨false, false⟩ (defaultUnits srcSample) []).store).store "parts"
      ≠ rowCount (run ⟨false, false⟩ (defaultUnits srcSample) []).store "parts") :=
  ⟨by decide,
   rerun_duplicates_rows false (defaultUnits srcSample) [] "parts" (by decide)⟩

/-- Every insert event of a unit's block targets that unit's table. -/
theorem mem_unitTrace (u : TransferUnit) (e : String × TransferRecord)
    (he : e ∈ unitTrace u) : e.1 = u.table := by
  simp only [unitTrace, List.mem_map] at he
  obtain ⟨rec, _, rfl⟩ := he
  rfl

/-- Every insert event of a run targets the table of some processed unit. -/
theorem mem_runTrace (units : List TransferUnit) (e : String × TransferRecord)
    (he : e ∈ runTrace units) : ∃ u ∈ units, e.1 = u.table := by
  induction units with
  | nil => simp [runTrace] at he
  | cons u rest ih =>
      simp only [runTrace, List.mem_append] at he
      cases he with
      | inl h => exact ⟨u, List.mem_cons_self u rest, mem_unitTrace u e h⟩
      | inr h =>
          obtain ⟨w, hw, hwe⟩ := ih h
          exact ⟨w, List.mem_cons_of_mem u hw, hwe⟩

/-- If table `p` is listed before table `t` in a duplicate-free unit list,
the trace splits into a prefix free of inserts for `t` and a suffix free of
inserts for `p`: every insert for `p` is issued before any insert for `t`. -/
theorem runTrace_split (p t : String) (units : List TransferUnit) :
    (units.map (fun u => u.table)).Nodup →
    List.Sublist [p, t] (units.map (fun u => u.table)) →
    ∃ A B, runTrace units = A ++ B ∧ (∀ e ∈ A, e.1 ≠ t) ∧ (∀ e ∈ B, e.1 ≠ p) := by
  induction units with
  | nil =>
      intro _ hsub
      simp at hsub
  | cons u rest ih =>
      intro hnd hsub
      rw [List.map_cons] at hnd hsub
      rw [List.nodup_cons] at hnd
      cases hsub with
      | cons _ h =>
          have hp : p ∈ rest.map (fun u => u.table) := h.subset (by simp)
          have ht : t ∈ rest.map (fun u => u.table) := h.subset (by simp)
          have hup : u.table ≠ t := fun he => hnd.1 (he ▸ ht)
          obtain ⟨A, B, hAB, hA, hB⟩ := ih hnd.2 h
          refine ⟨unitTrace u ++ A, B, ?_, ?_, hB⟩
          · simp [runTrace, hAB]
          · intro e he
            rcases List.mem_append.mp he with h1 | h2
            · rw [mem_unitTrace u e h1]; exact hup
            · exact hA e h2
      | cons₂ _ h =>
          have ht : t ∈ rest.map (fun u => u.table) := h.subset (by simp)
          refine ⟨unitTrace u, runTrace rest, rfl, ?_, ?_⟩
          · intro e he
            rw [mem_unitTrace u e he]
            exact fun heq => hnd.1 (heq ▸ ht)
          · intro e he
            obtain ⟨w, hw, hwe⟩ := mem_runTrace rest e he
            rw [hwe]
            exact fun heq => hnd.1 (heq ▸ List.mem_map_of_mem (fun u => u.table) hw)

/-- The tables of the run's units are exactly the fixed table order. -/
theorem defaultUnits_tables (src : String → List SourceRow) :
    (defaultUnits src).map (fun u => u.table) = tableOrder :=
  rfl

/-- Every dependency predecessor precedes its table in the fixed order. -/
theorem preds_precede :
    ∀ t ∈ tableOrder, ∀ p ∈ tablePreds t, List.Sublist [p, t] tableOrder := by
  decide

/-- C2: for tables `t` with dependency predecessor `p`, the Transfer Engine
never issues an insert for `t` before all inserts for `p` have been
attempted: the insert trace of a run over the fixed table order splits into
a prefix without inserts for `t` and a suffix without inserts for `p`. -/
theorem engine_never_inserts_before_predecessor (opts : TransferOptions)
    (dest : DestStore) (src : String → List SourceRow) (p t : String)
    (hp : p ∈ tablePreds t) (ht : t ∈ tableOrder) :
    ∃ A B, (run opts (defaultUnits src) dest).trace = A ++ B ∧
      (∀ e ∈ A, e.1 ≠ t) ∧ (∀ e ∈ B, e.1 ≠ p) := by
  rw [run_trace_eq]
  cases hd : opts.dryRun
  · simp only [if_neg Bool.false_ne_true]
    apply runTrace_split p t (defaultUnits src)
    · rw [defaultUnits_tables]
      decide
    · rw [defaultUnits_tables]
      exact preds_precede t ht p hp

  · exact ⟨[], [], by simp, by simp, by simp⟩

/-- Witness for C2 on a concrete run: part_categories is a predecessor of
parts and no parts insert precedes the part_categories inserts. -/
theorem engine_never_inserts_before_predecessor_witness :
    "part_categories" ∈ tablePreds "parts" ∧ "parts" ∈ tableOrder ∧
    (∃ A B, (run ⟨false, false⟩ (defaultUnits srcSample) []).trace = A ++ B ∧
      (∀ e ∈ A, e.1 ≠ "parts") ∧ (∀ e ∈ B, e.1 ≠ "part_categories")) :=
  ⟨by decide, by decide,
   engine_never_inserts_before_predecessor ⟨false, false⟩ [] srcSample
     "part_categories" "parts" (by decide) (by decide)⟩

/-- Every record in the insert trace was accepted by the validation step. -/
theorem runTrace_accepted (units : List TransferUnit) (e : String × TransferRecord)
    (he : e ∈ runTrace units) : e.2.accepted = true := by
  induction units with
  | nil => simp [runTrace] at he
  | cons u rest ih =>
      simp only [runTrace, List.mem_append] at he
      cases he with
      | inl h =>
          simp only [unitTrace, List.mem_map] at h
          obtain ⟨rec, hrec, rfl⟩ := h
          exact (List.mem_filter.mp hrec).2
      | inr h => exact ih h

/-- An accepted record is not a rejected one. -/
theorem accepted_ne_rejected (rec : TransferRecord) (h : rec.accepted = true) :
    rec.status ≠ RecordStatus.rejected := by
  intro hr
  simp [TransferRecord.accepted, hr] at h

/-- C3: a source row whose mapped primary key is missing yields a
TransferRecord with status rejected (a MappingRejection), and no record
passed to the engine's write step (no record in the insert trace of any
run) has status rejected. -/
theorem missing_pk_rejected_never_written (tableName : String) (r : SourceRow)
    (hpk : r.pk = none) (opts : TransferOptions) (units : List TransferUnit)
    (dest : DestStore) :
    (mapRow tableName r).status = RecordStatus.rejected ∧
    ∀ e ∈ (run opts units dest).trace, e.2.status ≠ RecordStatus.rejected := by
  constructor
  · simp [mapRow, hpk]
  · intro e he
    rw [run_trace_eq] at he
    cases hdr : opts.dryRun
    · rw [hdr, if_neg Bool.false_ne_true] at he
      exact accepted_ne_rejected e.2 (runTrace_accepted units e he)
    · rw [hdr, if_pos rfl] at he
      simp at he

/-- Witness for C3 at a concrete keyless row and a concrete run. -/
theorem missing_pk_rejected_never_written_witness :
    rowNoPk.pk = none ∧
    ((mapRow "parts" rowNoPk).status = RecordStatus.rejected ∧
     ∀ e ∈ (run ⟨false, false⟩ (defaultUnits srcSample) []).trace,
       e.2.status ≠ RecordStatus.rejected) :=
  ⟨rfl, missing_pk_rejected_never_written "parts" rowNoPk rfl ⟨false, false⟩
    (defaultUnits srcSample) []⟩

/-- A dead subscriber never reappears in any registry reached from a
registry purged of dead subscribers by further publishes. -/
theorem dead_notin_publishSeq (s : Subscriber) (hdead : s.alive = false)
    (es : List ChangeEvent) (r : Registry) :
    s ∉ publishSeq (r.filter (fun x => x.alive)) es := by
  induction es generalizing r with
  | nil =>
      intro hmem
      have hal := (List.mem_filter.mp hmem).2
      simp [hdead] at hal
  | cons e es ih =>
      show s ∉ publishSeq ((r.filter (fun x => x.alive)).filter (fun x => x.alive)) es
      exact ih (r.filter (fun x => x.alive))

/-- C4: a delivery failure to one subscriber (its connection already
closed) does not prevent delivery to any remaining live subscriber; the
failing subscriber is removed from the registry; and no subsequent publish
ever attempts delivery to it again. -/
theorem failed_delivery_isolated (reg : Registry) (e : ChangeEvent)
    (s : Subscriber) (hs : s ∈ reg) (hdead : s.alive = false) :
    (∀ s2 ∈ reg, s2.alive = true → s2 ∈ (publish reg e).delivered) ∧
    s ∉ (publish reg e).registry ∧
    (∀ es e2, s ∉ (publish (publishSeq (publish reg e).registry es) e2).attempted) := by
  refine ⟨?_, ?_, ?_⟩
  · intro s2 hs2 halive
    exact List.mem_filter.mpr ⟨hs2, by simp [halive]⟩
  · intro hmem
    have hal := (List.mem_filter.mp hmem).2
    simp [hdead] at hal
  · intro es e2 hmem
    exact dead_notin_publishSeq s hdead es reg hmem

/-- Witness for C4 on a concrete registry with one dead subscriber. -/
theorem failed_delivery_isolated_witness :
    ({ id := 2, alive := false } : Subscriber) ∈ regSample ∧
    ({ id := 2, alive := false } : Subscriber).alive = false ∧
    ((∀ s2 ∈ regSample, s2.alive = true → s2 ∈ (publish regSample evSample).delivered) ∧
     ({ id := 2, alive := false } : Subscriber) ∉ (publish regSample evSample).registry ∧
     (∀ es e2, ({ id := 2, alive := false } : Subscriber) ∉
        (publish (publishSeq (publish regSample evSample).registry es) e2).attempted)) :=
  ⟨by decide, rfl,
   failed_delivery_isolated regSample evSample { id := 2, alive := false } (by decide) rfl⟩

/-! ## Claim theorems for the web client -/

/-- Effect of `cacheAddAll` on a cache lookup: the named cache gains
exactly the given URLs, every other cache keeps its content. -/
theorem cacheLookup_addAll (s : CacheStorage) (name n : String) (urls : List String) :
    cacheLookup (cacheAddAll s name urls) n
      = if name = n then cacheLookup s n ++ urls else cacheLookup s n := by
  induction s with
  | nil => by_cases h : name = n <;> simp [cacheAddAll, cacheLookup, h]
  | cons hd rest ih =>
      obtain ⟨m, us⟩ := hd
      simp only [cacheAddAll]
      by_cases h1 : m = name
      · simp only [if_pos h1, cacheLookup]
        by_cases h2 : m = n
        · have h3 : name = n := h1.symm.trans h2
          simp [h2, h3]
        · have h3 : ¬name = n := fun he => h2 (h1.trans he)
          simp [h2, h3]
      · simp only [if_neg h1, cacheLookup]
        by_cases h2 : m = n
        · have h3 : ¬name = n := fun he => h1 (h2.trans he.symm)
          simp [h2, h3]
        · simp only [if_neg h2]
          exact ih

/-- C6: on install the service worker opens the cache named static-v1 and
adds exactly the two entries "/" and "/manifest.webmanifest"; no other
entry and no other cache is touched at install time. -/
theorem install_caches_exactly_two_assets (s : CacheStorage) :
    cacheLookup (installHandler s) "static-v1"
        = cacheLookup s "static-v1" ++ ["/", "/manifest.webmanifest"] ∧
    ∀ n, n ≠ "static-v1" → cacheLookup (installHandler s) n = cacheLookup s n := by
  constructor
  · simpa [installHandler]
      using cacheLookup_addAll s "static-v1" "static-v1" ["/", "/manifest.webmanifest"]
  · intro n hn
    have h := cacheLookup_addAll s "static-v1" n ["/", "/manifest.webmanifest"]
    rw [if_neg (fun he => hn he.symm)] at h
    simpa [installHandler] using h

/-- Witness for C6 on the empty cache storage and the cache named other. -/
theorem install_caches_exactly_two_assets_witness :
    cacheLookup (installHandler []) "static-v1" = ["/", "/manifest.webmanifest"] ∧
    cacheLookup (installHandler []) "other" = cacheLookup ([] : CacheStorage) "other" :=
  ⟨by simpa using (install_caches_exactly_two_assets []).1,
   (install_caches_exactly_two_assets []).2 "other" (by decide)⟩

/-- C10: the fetch handler is cache-first: when a cached response matching
the request exists it is returned and the network is not consulted; only
without a cache match does the handler fetch the original request from the
network. -/
theorem fetch_handler_cache_first (cacheMatch : String → Option String)
    (network : String → String) (req : String) :
    (∀ r, cacheMatch req = some r →
        fetchHandler cacheMatch network req = (r, FetchSource.fromCache)) ∧
    (cacheMatch req = none →
        fetchHandler cacheMatch network req = (network req, FetchSource.fromNetwork)) := by
  constructor
  · intro r h
    simp [fetchHandler, h]
  · intro h
    simp [fetchHandler, h]

/-- Witness for C10 on a concrete cache that only holds the root URL. -/
theorem fetch_handler_cache_first_witness :
    fetchHandler (fun q => if q = "/" then some "cached-root" else none)
        (fun _ => "network-response") "/"
      = ("cached-root", FetchSource.fromCache) ∧
    fetchHandler (fun q => if q = "/" then some "cached-root" else none)
        (fun _ => "network-response") "/api/parts"
      = ("network-response", FetchSource.fromNetwork) :=
  ⟨(fetch_handler_cache_first (fun q => if q = "/" then some "cached-root" else none)
      (fun _ => "network-response") "/").1 "cached-root" (by simp),
   (fetch_handler_cache_first (fun q => if q = "/" then some "cached-root" else none)
      (fun _ => "network-response") "/api/parts").2 (by simp)⟩

/-- C7: the route table holds exactly one top-level layout route, at path
"/" rendering AppLayout, and its children resolve to exactly three pages:
the dashboard as the index route at "/", the parts page at "/parts" and
the tasks page at "/tasks". -/
theorem router_exactly_three_pages :
    router.length = 1 ∧
    (router.map fun top => top.path) = ["/"] ∧
    (router.map fun top => top.element) = ["AppLayout"] ∧
    (router.map fun top => top.children.map fun c => (c.index, c.path))
      = [[(true, none), (false, some "parts"), (false, some "tasks")]] ∧
    routePages router
      = [("/", "DashboardPage"), ("/parts", "PartsPage"), ("/tasks", "TasksPage")] := by
  refine ⟨rfl, rfl, rfl, rfl, ?_⟩
  decide

/-- C8: the paginated response shape consumed by the web client consists of
exactly the four fields items, total, page and page_size: projecting to the
quadruple of those fields is a bijection. -/
theorem paginated_response_shape :
    Function.Bijective
      (fun r : PaginatedResponse Part => (r.items, r.total, r.page, r.page_size)) := by
  constructor
  · intro a b hab
    cases a
    cases b
    simp only [Prod.mk.injEq] at hab
    simp [hab.1, hab.2.1, hab.2.2.1, hab.2.2.2]
  · intro q
    exact ⟨⟨q.1, q.2.1, q.2.2.1, q.2.2.2⟩, rfl⟩

/-- Witness for C8: injectivity applied at a concrete response. -/
theorem paginated_response_shape_witness :
    ({ items := [], total := 0, page := 1, page_size := 50 } : PaginatedResponse Part)
      = { items := [], total := 0, page := 1, page_size := 50 } :=
  paginated_response_shape.1 rfl

/-- C9: one invocation of the parts query issues exactly one request, to
/api/parts with page 1 and page_size 50, and never a subsequent page; so
against a server holding any list of parts the client fetches exactly the
first 50 of them, regardless of the reported total. -/
theorem parts_query_first_page_only :
    (∀ req ∈ usePartsRequests, req.url = "/api/parts" ∧ req.page = 1 ∧ req.page_size = 50) ∧
    usePartsRequests.length = 1 ∧
    ∀ all : List Part, (usePartsFetch all).items = all.take 50 ∧
      (usePartsFetch all).items.length ≤ 50 ∧ (usePartsFetch all).total = all.length := by
  refine ⟨?_, rfl, ?_⟩
  · intro req hreq
    simp only [usePartsRequests, List.mem_singleton] at hreq
    subst hreq
    exact ⟨rfl, rfl, rfl⟩
  · intro all
    refine ⟨?_, ?_, rfl⟩
    · simp [usePartsFetch, paginate]
    · simp only [usePartsFetch, paginate]
      simpa using List.length_take_le 50 (all.drop ((1 - 1) * 50))

/-- Witness for C9 at the single concrete request and an empty catalogue. -/
theorem parts_query_first_page_only_witness :
    ({ url := "/api/parts", page := 1, page_size := 50 } : PartsRequest) ∈ usePartsRequests ∧
    (({ url := "/api/parts", page := 1, page_size := 50 } : PartsRequest).url = "/api/parts" ∧
     ({ url := "/api/parts", page := 1, page_size := 50 } : PartsRequest).page = 1 ∧
     ({ url := "/api/parts", page := 1, page_size := 50 } : PartsRequest).page_size = 50) ∧
    (usePartsFetch []).items = ([] : List Part).take 50 :=
  ⟨by decide,
   parts_query_first_page_only.1 { url := "/api/parts", page := 1, page_size := 50 } (by decide),
   (parts_query_first_page_only.2.2 []).1⟩

end GemCodex
